import Mathlib

/-!
Shallow embedding of the reputation-augmentation simulation core
(`src/players.py` and the per-question portion of `src/simulation.py`).

Conventions of the embedding:
* Python floats are modelled as real numbers (`ℝ`).
* The Python `dict[str, tuple[int, int]]` reputation ledger is modelled as an
  association list `Ledger := List (String × (ℤ × ℤ))`; the pair is
  `(total_contributions, correct_contributions)` as in `players.py` line 29
  (and as destructured in `calculate_confidence`, line 92).
* Randomness is modelled by explicit oracles: the quorum-selection draw is a
  function `pick : ℕ → ℕ` giving, for each loop round, the index of the chosen
  voter among the remaining ones, and an agent's uniform draw in `vote` is an
  explicit parameter `r : ℝ`.  Every behaviour of the Python program
  corresponds to some choice of oracle.
-/

/-- The sparse per-domain reputation ledger of one agent:
entries are `(domain, (total_contributions, correct_contributions))`.
Mirrors `AnsweringEntity.sparse_rep` in `players.py`. -/
abbrev Ledger : Type := List (String × (ℤ × ℤ))

/-- Dictionary lookup in the ledger (Python `self.sparse_rep.get(domain)` /
`domain in self.sparse_rep.keys()`). -/
def lookupRep : Ledger → String → Option (ℤ × ℤ)
  | [], _ => none
  | (d', v) :: rest, d => if d' = d then some v else lookupRep (rest : Ledger) d

/-- Dictionary assignment `self.sparse_rep[domain] = v`: replace the entry if
the key is present, append it otherwise. -/
def setRep : Ledger → String → (ℤ × ℤ) → Ledger
  | [], d, v => [(d, v)]
  | (d', v') :: rest, d, v =>
      if d' = d then (d, v) :: rest else (d', v') :: setRep (rest : Ledger) d v

/-- The loop body of `AnsweringEntity.update_reputation` (`players.py` lines
115–118): read the current `(total, correct)` pair of `domain` (with `(0, 0)`
for an absent key) and store `(total + 1, correct + increment)`. -/
def update_domain (increment : ℤ) (acc : Ledger) (domain : String) : Ledger :=
  let current_rep : ℤ × ℤ := (lookupRep acc domain).getD (0, 0)
  setRep acc domain (current_rep.1 + 1, current_rep.2 + increment)

/-- Embeds `AnsweringEntity.update_reputation` (`players.py` lines 109–118):
`increment = +1` if the vote agrees with the resolved outcome, `-1` otherwise;
then for every domain occurrence in the question context list, the entry is
`(total + 1, correct + increment)`, starting from `(0, 0)` for absent keys. -/
def update_reputation (l : Ledger) (voted : Bool) (resolved_outcome : Bool)
    (question_context : List String) : Ledger :=
  let increment : ℤ := if voted = resolved_outcome then 1 else -1
  question_context.foldl (update_domain increment) l

/-- The state of one answering agent (`AnsweringEntity.__init__`,
`players.py` lines 25–42).  `knowledge_domains` is the fixed sample drawn at
creation; `c1`, `c2` and `experience_boost` are the stored parameters. -/
structure AnsweringEntity where
  sparse_rep : Ledger
  participation_count : ℕ
  knowledge_domains : List String
  c1 : ℝ
  c2 : ℝ
  experience_boost : ℝ

instance : Inhabited AnsweringEntity := ⟨⟨([] : Ledger), 0, [], 0, 0, 0⟩⟩

/-- The list comprehension of `calculate_confidence` (`players.py` lines
91–94): project the ledger onto the question-context list (one entry per
occurrence of a present domain, in context order) and clamp negative
correctness counts to zero. -/
def rep_vector (l : Ledger) (question_context : List String) : List ℤ :=
  (question_context.filterMap (fun c => lookupRep l c)).map
    (fun tc => max tc.2 0)

/-- Embeds `np.linalg.norm(rep_vector, ord=1)` (`players.py` line 96): the L1 norm of
the projected reputation vector. -/
noncomputable def magnitude (l : Ledger) (question_context : List String) : ℝ :=
  ((rep_vector l question_context).map (fun z => |(z : ℝ)|)).sum

/-- The single-domain contribution to `magnitude`: the clamped correctness
count of the domain if present in the ledger, `0` otherwise. -/
noncomputable def domain_contribution (l : Ledger) (d : String) : ℝ :=
  match lookupRep l d with
  | some tc => |((max tc.2 0 : ℤ) : ℝ)|
  | none => 0

/-- Embeds `AnsweringEntity.calculate_confidence` (`players.py` lines 84–107):
the bounded sigmoid `1 + c1 * (1 / (1 + exp (-m * c2)) - 1/2)` applied to the
L1 magnitude of the projected reputation vector. -/
noncomputable def calculate_confidence (a : AnsweringEntity)
    (question_context : List String) : ℝ :=
  let m := magnitude a.sparse_rep question_context
  1 + a.c1 * (1 / (1 + Real.exp (-m * a.c2)) - 1 / 2)

/-- Embeds `AnsweringEntity.vote` (`players.py` lines 44–80).  `r` is the value of
the single `random.random()` draw.  The method mutates only
`_participation_count`; the returned triple is
`(vote, confidence-or-None, stake)` with stake fixed at `1`, and the
confidence component present exactly when `rep` is true. -/
noncomputable def vote (a : AnsweringEntity) (q_context : List String)
    (inverse_contention : ℝ) (true_outcome : Bool) (rep : Bool) (r : ℝ) :
    AnsweringEntity × (Bool × Option ℝ × ℝ) :=
  let a' := { a with participation_count := a.participation_count + 1 }
  let domain_experience := a.knowledge_domains.any (fun d => q_context.contains d)
  let aligned : Prop :=
    if domain_experience then
      r < min (inverse_contention + a.experience_boost) 1
    else
      r < inverse_contention
  let v : Bool := if aligned then true_outcome else !true_outcome
  if rep then
    (a', (v, some (calculate_confidence a' q_context), 1))
  else
    (a', (v, none, 1))

/-- The quorum-selection loop of `simulation.py` lines 174–199, over voter
indices `0 .. pop.length - 1`.  `contrib i` is what selecting voter `i` adds to
`available_reputation` (its confidence in reputation mode with a variable
threshold, else a flat `1`, lines 190–194).  The weighted `random.sample` draw
is modelled by the oracle `pick`: in round `round` the voter at position
`pick round % remaining.length` of the remaining list is selected; removal is
by first occurrence (`remaining.remove(selected)`), which on the distinct
voter indices is removal of the selected voter.  The affinity multiplicities
only bias the random draw, which the oracle abstracts. -/
noncomputable def quorumLoop (contrib : ℕ → ℝ) (threshold : ℝ) (pick : ℕ → ℕ)
    (round : ℕ) (remaining participants : List ℕ)
    (available_reputation : ℝ) : List ℕ × List ℕ × ℝ :=
  if available_reputation < threshold then
    if h : remaining = [] then
      (remaining, participants, available_reputation)
    else
      let v := remaining.getD (pick round % remaining.length) 0
      quorumLoop contrib threshold pick (round + 1) (remaining.erase v)
        (participants ++ [v]) (available_reputation + contrib v)
  else (remaining, participants, available_reputation)
termination_by remaining.length
decreasing_by
  have hlen : 0 < remaining.length := List.length_pos.mpr h
  have hidx : pick round % remaining.length < remaining.length := Nat.mod_lt _ hlen
  have hv : remaining.getD (pick round % remaining.length) 0 ∈ remaining := by
    rw [List.getD_eq_getElem _ _ hidx]
    exact List.getElem_mem hidx
  have := List.length_erase_of_mem hv
  simp only [this]
  omega

/-- The weight one collected vote contributes to its side of the tally
(`simulation.py` lines 244–255): `confidence * stake` when reputation is in
use, bare `stake` otherwise.  (When reputation is in use the confidence
component is always present, so the `getD 0` default is never exercised.) -/
noncomputable def vote_weight (use_reputation : Bool) (v : Bool × Option ℝ × ℝ) : ℝ :=
  if use_reputation then (v.2.1.getD 0) * v.2.2 else v.2.2

/-- The vote-aggregation fold of `simulation.py` lines 239–255: accumulate
`(cumulative_true_votes, cumulative_false_votes)`. -/
noncomputable def tally (use_reputation : Bool)
    (collected_votes : List (Bool × Option ℝ × ℝ)) : ℝ × ℝ :=
  collected_votes.foldl
    (fun acc v =>
      if v.1 then (acc.1 + vote_weight use_reputation v, acc.2)
      else (acc.1, acc.2 + vote_weight use_reputation v))
    (0, 0)

/-- The outcome-resolution rule of `simulation.py` lines 258–267: strictly
greater true-sum resolves `true`, strictly greater false-sum resolves `false`,
exact equality is the indeterminate tie (`none`). -/
noncomputable def resolveOutcome (cumulative_true_votes cumulative_false_votes : ℝ) :
    Option Bool :=
  if cumulative_false_votes < cumulative_true_votes then some true
  else if cumulative_true_votes < cumulative_false_votes then some false
  else none

/-- The per-question result fields of `QuestionPool.Question`
(`players.py` lines 151–155) as set by the driver loop. -/
structure QuestionResult where
  aborted : Bool
  indeterminate_resolution : Bool
  parties_used : Option ℕ
  resolved_outcome : Option Bool
  resolved_correctly : Option Bool
deriving DecidableEq, Repr

/-- What selecting voter `i` adds to `available_reputation`
(`simulation.py` lines 190–194): its recomputed confidence when reputation is
in use with a variable threshold, else a flat `1`. -/
noncomputable def selection_contribution (pop : List AnsweringEntity)
    (ctx : List String) (use_reputation fixed_threshold : Bool) (i : ℕ) : ℝ :=
  if use_reputation && !fixed_threshold then
    calculate_confidence (pop.getD i default) ctx
  else 1

/-- One full question iteration of the driver loop (`simulation.py` lines
160–293): quorum selection, the abort check, voting, tallying, resolution,
and the reputation feedback, returning the question's result fields and the
updated population.  `pick` and `draw` are the randomness oracles (selection
draws and the per-voter uniform draws, in voting order). -/
noncomputable def runQuestion (pop : List AnsweringEntity) (ctx : List String)
    (threshold contention : ℝ) (true_outcome : Bool)
    (use_reputation fixed_threshold : Bool) (pick : ℕ → ℕ) (draw : ℕ → ℝ) :
    QuestionResult × List AnsweringEntity :=
  let sel := quorumLoop (selection_contribution pop ctx use_reputation fixed_threshold)
    threshold pick 0 (List.range pop.length) [] 0
  if sel.1.length = 0 ∧ sel.2.2 < threshold then
    ({ aborted := true, indeterminate_resolution := true, parties_used := none,
       resolved_outcome := none, resolved_correctly := none }, pop)
  else
    let participants := sel.2.1
    let collected_votes : List (Bool × Option ℝ × ℝ) :=
      participants.enum.map (fun ki =>
        (vote (pop.getD ki.2 default) ctx contention true_outcome use_reputation
          (draw ki.1)).2)
    let pop1 : List AnsweringEntity :=
      participants.enum.foldl
        (fun acc ki =>
          acc.set ki.2
            (vote (acc.getD ki.2 default) ctx contention true_outcome use_reputation
              (draw ki.1)).1)
        pop
    let sums := tally use_reputation collected_votes
    match resolveOutcome sums.1 sums.2 with
    | none =>
        ({ aborted := false, indeterminate_resolution := true,
           parties_used := some participants.length,
           resolved_outcome := none, resolved_correctly := none }, pop1)
    | some o =>
        let pop2 : List AnsweringEntity :=
          (participants.zip collected_votes).foldl
            (fun acc iv =>
              acc.set iv.1
                { acc.getD iv.1 default with
                  sparse_rep :=
                    update_reputation (acc.getD iv.1 default).sparse_rep iv.2.1 o ctx })
            pop1
        ({ aborted := false, indeterminate_resolution := false,
           parties_used := some participants.length,
           resolved_outcome := some o,
           resolved_correctly := some (o == true_outcome) }, pop2)

/-- Ledger states reachable in a run: the ledger of a fresh agent is the
empty dictionary (`players.py` line 29) and the only mutation the driver loop
performs on it is `update_reputation` (`simulation.py` line 272). -/
inductive ReachableLedger : Ledger → Prop where
  | init : ReachableLedger []
  | step (l : Ledger) (voted resolved_outcome : Bool)
      (question_context : List String) :
      ReachableLedger l →
      ReachableLedger (update_reputation l voted resolved_outcome question_context)

/-- A concrete agent with an empty ledger and no knowledge domains,
with `c1 = 2`, `c2 = 3`, `experience_boost = 1/10`. -/
noncomputable def c5Agent : AnsweringEntity := ⟨[], 0, [], 2, 3, 1 / 10⟩

/-- A concrete fresh agent with an empty ledger, no knowledge domains and
`c1 = c2 = 1`, `experience_boost = 1/10`, as used in the concrete runs. -/
noncomputable def demoAgent : AnsweringEntity := ⟨[], 0, [], 1, 1, 1 / 10⟩

/-! ### Ledger lemmas -/

/-- The `total_contributions` component the program associates with a domain:
the first component of the ledger entry, `0` when the domain is absent. -/
def total_contributions (l : Ledger) (d : String) : ℤ :=
  ((lookupRep l d).getD (0, 0)).1

/-- The `correct_contributions` component the program associates with a
domain: the second component of the ledger entry, `0` when absent. -/
def correct_contributions (l : Ledger) (d : String) : ℤ :=
  ((lookupRep l d).getD (0, 0)).2

theorem lookupRep_setRep (l : Ledger) (d x : String) (v : ℤ × ℤ) :
    lookupRep (setRep l d v) x = if d = x then some v else lookupRep l x := by
  induction l with
  | nil => simp [setRep, lookupRep]
  | cons hd tl ih =>
    obtain ⟨d', v'⟩ := hd
    by_cases h1 : d' = d
    · subst h1
      by_cases h2 : d' = x <;> simp [setRep, lookupRep, h2]
    · by_cases h2 : d' = x
      · subst h2
        have h3 : ¬ d = d' := fun h => h1 h.symm
        simp [setRep, lookupRep, h1, h3]
      · simp [setRep, lookupRep, h1, h2, ih]

theorem total_contributions_update_domain (inc : ℤ) (l : Ledger) (x d : String) :
    total_contributions (update_domain inc l x) d =
      total_contributions l d + (if x = d then 1 else 0) := by
  unfold update_domain total_contributions
  rw [lookupRep_setRep]
  by_cases h : x = d <;> simp [h]

theorem correct_contributions_update_domain (inc : ℤ) (l : Ledger) (x d : String) :
    correct_contributions (update_domain inc l x) d =
      correct_contributions l d + (if x = d then inc else 0) := by
  unfold update_domain correct_contributions
  rw [lookupRep_setRep]
  by_cases h : x = d <;> simp [h]

theorem correct_le_total_update_domain (inc : ℤ) (hinc : inc ≤ 1) (l : Ledger)
    (x : String) (h : ∀ d, correct_contributions l d ≤ total_contributions l d) :
    ∀ d, correct_contributions (update_domain inc l x) d ≤
      total_contributions (update_domain inc l x) d := by
  intro d
  rw [correct_contributions_update_domain, total_contributions_update_domain]
  have hd := h d
  by_cases hxd : x = d
  · rw [if_pos hxd, if_pos hxd]; omega
  · rw [if_neg hxd, if_neg hxd]; omega

theorem correct_le_total_foldl (inc : ℤ) (hinc : inc ≤ 1) :
    ∀ (ctx : List String) (l : Ledger),
      (∀ d, correct_contributions l d ≤ total_contributions l d) →
      ∀ d, correct_contributions (ctx.foldl (update_domain inc) l) d ≤
        total_contributions (ctx.foldl (update_domain inc) l) d := by
  intro ctx
  induction ctx with
  | nil => intro l h d; simpa using h d
  | cons x ctx ih =>
    intro l h d
    rw [List.foldl_cons]
    exact ih _ (correct_le_total_update_domain inc hinc l x h) d

theorem reachable_correct_le_total :
    ∀ l : Ledger, ReachableLedger l →
      ∀ d, correct_contributions l d ≤ total_contributions l d := by
  intro l h
  induction h with
  | init => intro d; simp [correct_contributions, total_contributions, lookupRep]
  | step l v r ctx _ ih =>
    intro d
    unfold update_reputation
    have hinc : (if v = r then (1 : ℤ) else -1) ≤ 1 := by split_ifs <;> norm_num
    exact correct_le_total_foldl _ hinc ctx l ih d

/-! ### Claims C2 and C3 -/

/-- C2 (counterexample): a single `update_reputation` call for one agent and
one question whose context list contains the domain `"a"` twice increments
that domain's `total_contributions` by `2`, not by `1`. -/
theorem C2_counterexample :
    total_contributions (update_reputation [] true true ["a", "a"]) "a" = 2 ∧
    (2 : ℤ) ≠ 1 := by
  constructor
  · decide
  · decide

/-- C2 (amended): one `update_reputation` call increases a domain's
`total_contributions` by exactly the number of occurrences of that domain in
the question's primary-plus-secondary context list — so by exactly `1` only
when the domain occurs exactly once. -/
theorem C2_total_contributions_update (l : Ledger) (voted resolved_outcome : Bool)
    (question_context : List String) (d : String) :
    total_contributions (update_reputation l voted resolved_outcome question_context) d =
      total_contributions l d + question_context.count d := by
  unfold update_reputation
  generalize (if voted = resolved_outcome then (1 : ℤ) else -1) = inc
  induction question_context generalizing l with
  | nil => simp
  | cons x ctx ih =>
    rw [List.foldl_cons, ih, total_contributions_update_domain, List.count_cons]
    by_cases h : x = d
    · subst h; simp; omega
    · have hbeq : (d == x) = false := beq_eq_false_iff_ne.mpr (Ne.symm h)
      simp [h, hbeq]

/-- C3 (counterexample, as negation): under the implemented update formula no
reachable ledger state has a domain whose `correct_contributions` strictly
exceeds its `total_contributions`. -/
theorem C3_counterexample :
    ¬ ∃ l : Ledger, ReachableLedger l ∧
        ∃ (d : String) (t c : ℤ), lookupRep l d = some (t, c) ∧ t < c := by
  rintro ⟨l, hl, d, t, c, hlook, hlt⟩
  have h := reachable_correct_le_total l hl d
  rw [correct_contributions, total_contributions, hlook] at h
  simp at h
  omega

/-- C3 (amended): in every reachable ledger state every domain satisfies
`correct_contributions ≤ total_contributions`; what the update formula does
allow is a strictly negative `correct_contributions` (here `(1, -1)` after one
disagreeing vote). -/
theorem C3_correct_le_total :
    (∀ l : Ledger, ReachableLedger l →
        ∀ d, correct_contributions l d ≤ total_contributions l d) ∧
    (∃ l : Ledger, ReachableLedger l ∧
        ∃ d : String, lookupRep l d = some (1, -1)) :=
  ⟨reachable_correct_le_total,
   update_reputation [] true false ["neg"],
   ReachableLedger.step _ _ _ _ ReachableLedger.init,
   "neg", by decide⟩

/-- C3 (witness): the invariant of `C3_correct_le_total` applied to the
concrete reachable ledger produced by one agreeing vote on context `["a"]`. -/
theorem C3_witness :
    ReachableLedger (update_reputation [] true true ["a"]) ∧
    correct_contributions (update_reputation [] true true ["a"]) "a" ≤
      total_contributions (update_reputation [] true true ["a"]) "a" :=
  ⟨ReachableLedger.step _ _ _ _ ReachableLedger.init,
   C3_correct_le_total.1 _ (ReachableLedger.step _ _ _ _ ReachableLedger.init) "a"⟩

/-! ### Confidence lemmas, claims C5, C7, C9, C10 -/

theorem magnitude_nonneg (l : Ledger) (ctx : List String) : 0 ≤ magnitude l ctx := by
  unfold magnitude
  apply List.sum_nonneg
  intro x hx
  simp only [List.mem_map] at hx
  obtain ⟨z, _, rfl⟩ := hx
  exact abs_nonneg _

theorem sigmoid_bounds (c1 c2 m : ℝ) (hc1 : 0 < c1) (hc2 : 0 < c2) (hm : 0 ≤ m) :
    1 ≤ 1 + c1 * (1 / (1 + Real.exp (-m * c2)) - 1 / 2) ∧
    1 + c1 * (1 / (1 + Real.exp (-m * c2)) - 1 / 2) ≤ 1 + c1 / 2 := by
  have hE0 : 0 < Real.exp (-m * c2) := Real.exp_pos _
  have hEle : Real.exp (-m * c2) ≤ 1 := by
    rw [Real.exp_le_one_iff]
    nlinarith
  set E := Real.exp (-m * c2) with hE
  have h1E : 0 < 1 + E := by linarith
  have hhalf : 1 / 2 ≤ 1 / (1 + E) := by
    rw [div_le_div_iff (by norm_num) h1E]
    linarith
  have hone : 1 / (1 + E) ≤ 1 := by
    rw [div_le_one h1E]; linarith
  constructor
  · nlinarith
  · nlinarith

/-- C5: for every agent state and query context, with `c1, c2 > 0`, the
confidence lies in the closed interval `[1, 1 + c1/2]`, and an agent with no
ledger entry for any queried domain gets exactly the floor confidence `1`. -/
theorem C5_confidence_bounds (a : AnsweringEntity) (ctx : List String)
    (hc1 : 0 < a.c1) (hc2 : 0 < a.c2) :
    (1 ≤ calculate_confidence a ctx ∧
      calculate_confidence a ctx ≤ 1 + a.c1 / 2) ∧
    ((∀ d ∈ ctx, lookupRep a.sparse_rep d = none) →
      calculate_confidence a ctx = 1) := by
  constructor
  · exact sigmoid_bounds a.c1 a.c2 (magnitude a.sparse_rep ctx) hc1 hc2
      (magnitude_nonneg _ _)
  · intro hnone
    have hvec : rep_vector a.sparse_rep ctx = [] := by
      unfold rep_vector
      rw [List.filterMap_eq_nil.mpr hnone]
      rfl
    have hm : magnitude a.sparse_rep ctx = 0 := by
      unfold magnitude
      rw [hvec]
      rfl
    show 1 + a.c1 * (1 / (1 + Real.exp (-(magnitude a.sparse_rep ctx) * a.c2)) - 1 / 2) = 1
    rw [hm]
    norm_num

/-- C5 (witness): the bounds and the floor value at the concrete fresh agent
`c5Agent` (`c1 = 2 > 0`, `c2 = 3 > 0`, empty ledger) and context `["x"]`. -/
theorem C5_witness :
    1 ≤ calculate_confidence c5Agent ["x"] ∧
    calculate_confidence c5Agent ["x"] ≤ 1 + c5Agent.c1 / 2 ∧
    calculate_confidence c5Agent ["x"] = 1 := by
  have h := C5_confidence_bounds c5Agent ["x"]
    (by norm_num [c5Agent]) (by norm_num [c5Agent])
  exact ⟨h.1.1, h.1.2, h.2 (by intro d _; rfl)⟩

theorem magnitude_cons (l : Ledger) (d : String) (ctx : List String) :
    magnitude l (d :: ctx) = domain_contribution l d + magnitude l ctx := by
  unfold magnitude rep_vector domain_contribution
  cases h : lookupRep l d <;>
    simp [List.filterMap_cons, h]

/-- C9: `calculate_confidence`'s magnitude adds the clamped per-domain
correctness count once per occurrence of the domain in the queried context
list — a domain occurring `k` times contributes `k` times its clamped count,
not once per distinct domain. -/
theorem C9_duplicate_domains_accumulate :
    (∀ (l : Ledger) (d : String) (ctx : List String),
        magnitude l (d :: ctx) = domain_contribution l d + magnitude l ctx) ∧
    (∀ (l : Ledger) (d : String) (k : ℕ),
        magnitude l (List.replicate k d) = k * domain_contribution l d) := by
  refine ⟨magnitude_cons, fun l d k => ?_⟩
  induction k with
  | zero =>
    simp [magnitude, rep_vector]
  | succ k ih =>
    rw [List.replicate_succ, magnitude_cons, ih]
    push_cast
    ring

/-- C7: every call of `vote` returns stake exactly `1`, and the confidence
component is `none` exactly when `rep` is false, else the agent's
`calculate_confidence` value for the question context. -/
theorem C7_vote_stake_confidence (a : AnsweringEntity) (ctx : List String)
    (inverse_contention : ℝ) (true_outcome : Bool) (rep : Bool) (r : ℝ) :
    (vote a ctx inverse_contention true_outcome rep r).2.2.2 = 1 ∧
    (vote a ctx inverse_contention true_outcome rep r).2.2.1 =
      (if rep then some (calculate_confidence a ctx) else none) := by
  cases rep <;> exact ⟨rfl, rfl⟩

/-- C10: `calculate_confidence` is a pure function of the agent's ledger and
the stored `c1`, `c2` (in particular unchanged by `participation_count` or
`knowledge_domains`), and `vote` — the only state-changing consumer — changes
nothing but `participation_count`, so the confidence evaluated during
candidate weighting, quorum progress and voting is the same value. -/
theorem C10_confidence_pure_frame :
    (∀ (l : Ledger) (n n' : ℕ) (kd kd' : List String) (c1 c2 b b' : ℝ)
        (ctx : List String),
        calculate_confidence ⟨l, n, kd, c1, c2, b⟩ ctx =
          calculate_confidence ⟨l, n', kd', c1, c2, b'⟩ ctx) ∧
    (∀ (a : AnsweringEntity) (ctx : List String) (ic : ℝ) (tOut rep : Bool) (r : ℝ),
        (vote a ctx ic tOut rep r).1.sparse_rep = a.sparse_rep ∧
        (vote a ctx ic tOut rep r).1.knowledge_domains = a.knowledge_domains ∧
        (vote a ctx ic tOut rep r).1.c1 = a.c1 ∧
        (vote a ctx ic tOut rep r).1.c2 = a.c2 ∧
        (vote a ctx ic tOut rep r).1.experience_boost = a.experience_boost ∧
        (vote a ctx ic tOut rep r).1.participation_count = a.participation_count + 1 ∧
        calculate_confidence (vote a ctx ic tOut rep r).1 ctx =
          calculate_confidence a ctx) := by
  constructor
  · intro l n n' kd kd' c1 c2 b b' ctx
    rfl
  · intro a ctx ic tOut rep r
    cases rep <;> exact ⟨rfl, rfl, rfl, rfl, rfl, rfl, rfl⟩

/-! ### Claim C6 -/

/-- C6: resolution compares the two weighted sums strictly — `some true` iff
the true-sum is strictly greater, `some false` iff strictly smaller — and with
reputation disabled and uniform stake `1`, the votes `(T, T, F)` tally to
`(2, 1)` and resolve to `true` with no tie. -/
theorem C6_strict_comparison_resolution :
    (∀ t f : ℝ,
        (resolveOutcome t f = some true ↔ f < t) ∧
        (resolveOutcome t f = some false ↔ t < f)) ∧
    (resolveOutcome
        (tally false [(true, none, 1), (true, none, 1), (false, none, 1)]).1
        (tally false [(true, none, 1), (true, none, 1), (false, none, 1)]).2 =
      some true) := by
  constructor
  · intro t f
    rcases lt_trichotomy t f with h | h | h
    · simp [resolveOutcome, h, lt_asymm h]
    · subst h
      simp [resolveOutcome, lt_irrefl]
    · simp [resolveOutcome, h, lt_asymm h]
  · have ht : tally false [(true, none, 1), (true, none, 1), (false, none, 1)]
        = ((2 : ℝ), (1 : ℝ)) := by
      simp [tally, vote_weight]
      norm_num
    rw [ht]
    norm_num [resolveOutcome]

/-! ### Quorum-loop lemmas, claim C8 -/

theorem quorumLoop_stop (contrib : ℕ → ℝ) (thr : ℝ) (pick : ℕ → ℕ) (round : ℕ)
    (remaining participants : List ℕ) (avail : ℝ) (h : ¬ avail < thr) :
    quorumLoop contrib thr pick round remaining participants avail =
      (remaining, participants, avail) := by
  rw [quorumLoop, if_neg h]

theorem quorumLoop_nil (contrib : ℕ → ℝ) (thr : ℝ) (pick : ℕ → ℕ) (round : ℕ)
    (participants : List ℕ) (avail : ℝ) :
    quorumLoop contrib thr pick round [] participants avail =
      ([], participants, avail) := by
  by_cases h : avail < thr
  · rw [quorumLoop, if_pos h, dif_pos rfl]
  · rw [quorumLoop, if_neg h]

theorem quorumLoop_step (contrib : ℕ → ℝ) (thr : ℝ) (pick : ℕ → ℕ) (round : ℕ)
    (remaining participants : List ℕ) (avail : ℝ)
    (hlt : avail < thr) (hne : remaining ≠ []) :
    quorumLoop contrib thr pick round remaining participants avail =
      quorumLoop contrib thr pick (round + 1)
        (remaining.erase (remaining.getD (pick round % remaining.length) 0))
        (participants ++ [remaining.getD (pick round % remaining.length) 0])
        (avail + contrib (remaining.getD (pick round % remaining.length) 0)) := by
  rw [quorumLoop, if_pos hlt, dif_neg hne]

theorem quorumLoop_inv (contrib : ℕ → ℝ) (thr : ℝ) (pick : ℕ → ℕ) :
    ∀ (n : ℕ) (remaining : List ℕ), remaining.length ≤ n →
    ∀ (participants : List ℕ) (avail : ℝ) (round : ℕ),
      remaining.Nodup → participants.Nodup →
      (∀ x ∈ participants, x ∉ remaining) →
      ((quorumLoop contrib thr pick round remaining participants avail).2.1.Nodup ∧
        (quorumLoop contrib thr pick round remaining participants avail).2.1.length +
          (quorumLoop contrib thr pick round remaining participants avail).1.length =
          participants.length + remaining.length) := by
  intro n
  induction n with
  | zero =>
    intro remaining hlen participants avail round hrem hpart hdisj
    have hnil : remaining = [] := List.eq_nil_of_length_eq_zero (Nat.le_zero.mp hlen)
    subst hnil
    rw [quorumLoop_nil]
    exact ⟨hpart, by simp⟩
  | succ n ih =>
    intro remaining hlen participants avail round hrem hpart hdisj
    by_cases hlt : avail < thr
    · by_cases hnil : remaining = []
      · subst hnil
        rw [quorumLoop_nil]
        exact ⟨hpart, by simp⟩
      · rw [quorumLoop_step contrib thr pick round remaining participants avail hlt hnil]
        have hlenpos : 0 < remaining.length := List.length_pos.mpr hnil
        have hidx : pick round % remaining.length < remaining.length :=
          Nat.mod_lt _ hlenpos
        have hvmem : remaining.getD (pick round % remaining.length) 0 ∈ remaining := by
          rw [List.getD_eq_getElem _ _ hidx]
          exact List.getElem_mem hidx
        set v := remaining.getD (pick round % remaining.length) 0 with hv
        have herase : (remaining.erase v).length = remaining.length - 1 :=
          List.length_erase_of_mem hvmem
        have hrem' : (remaining.erase v).Nodup := hrem.erase v
        have hvnot : v ∉ remaining.erase v := by
          intro hmem
          exact ((List.Nodup.mem_erase_iff hrem).mp hmem).1 rfl
        have hpart' : (participants ++ [v]).Nodup := by
          apply List.Nodup.append hpart (List.nodup_singleton v)
          intro x hx hx'
          have hxv : x = v := by simpa using hx'
          subst hxv
          exact (hdisj v hx) hvmem
        have hdisj' : ∀ x ∈ participants ++ [v], x ∉ remaining.erase v := by
          intro x hx hmem
          rcases List.mem_append.mp hx with hx1 | hx1
          · exact hdisj x hx1 (List.mem_of_mem_erase hmem)
          · have hxv : x = v := by simpa using hx1
            subst hxv
            exact hvnot hmem
        have hlen' : (remaining.erase v).length ≤ n := by
          rw [herase]; omega
        have hres := ih (remaining.erase v) hlen' (participants ++ [v])
          (avail + contrib v) (round + 1) hrem' hpart' hdisj'
        refine ⟨hres.1, ?_⟩
        rw [hres.2]
        simp only [List.length_append, List.length_singleton, herase]
        omega
    · rw [quorumLoop_stop _ _ _ _ _ _ _ hlt]
      exact ⟨hpart, rfl⟩

/-- C8: starting from the full population of distinct voter indices, the
quorum-selection loop never adds the same voter to the participant list twice,
and never selects more participants than the population size — for every
threshold, contribution function and random draw. -/
theorem C8_quorum_selection_bounds (contrib : ℕ → ℝ) (thr : ℝ) (pick : ℕ → ℕ)
    (n : ℕ) :
    (quorumLoop contrib thr pick 0 (List.range n) [] 0).2.1.Nodup ∧
    (quorumLoop contrib thr pick 0 (List.range n) [] 0).2.1.length ≤ n := by
  have h := quorumLoop_inv contrib thr pick n (List.range n) (by simp) [] 0 0
    (List.nodup_range n) List.nodup_nil (by simp)
  refine ⟨h.1, ?_⟩
  have h2 := h.2
  simp only [List.length_nil, List.length_range, Nat.zero_add] at h2
  omega

/-! ### Claim C1 -/

theorem runQuestion_threshold_zero (pop : List AnsweringEntity) (ctx : List String)
    (contention : ℝ) (tOut use_rep fixed : Bool) (pick : ℕ → ℕ) (draw : ℕ → ℝ) :
    runQuestion pop ctx 0 contention tOut use_rep fixed pick draw =
      ({ aborted := false, indeterminate_resolution := true, parties_used := some 0,
         resolved_outcome := none, resolved_correctly := none }, pop) := by
  simp only [runQuestion]
  rw [quorumLoop_stop _ _ _ _ _ _ _ (lt_irrefl (0 : ℝ))]
  simp [tally, resolveOutcome, lt_irrefl]

/-- C1 (amended): with a population of exactly one agent and confidence
threshold `0`, the quorum loop stops before selecting anybody: the question is
never marked aborted, but it records `parties_used = 0` (not `1`) and the
empty vote tally is an exact tie, so the question ends indeterminate with no
resolved outcome and the agent unchanged. -/
theorem C1_population_one_threshold_zero (a : AnsweringEntity) (ctx : List String)
    (contention : ℝ) (tOut use_rep fixed : Bool) (pick : ℕ → ℕ) (draw : ℕ → ℝ) :
    runQuestion [a] ctx 0 contention tOut use_rep fixed pick draw =
      ({ aborted := false, indeterminate_resolution := true, parties_used := some 0,
         resolved_outcome := none, resolved_correctly := none }, [a]) :=
  runQuestion_threshold_zero [a] ctx contention tOut use_rep fixed pick draw

/-- C1 (counterexample): in a concrete population-1, threshold-0 run the
question resolves with `parties_used = some 0`, not `some 1`, and is an
indeterminate tie rather than a resolution (it is indeed never aborted). -/
theorem C1_counterexample :
    (runQuestion [demoAgent] ["d"] 0 (7 / 10) true false false
        (fun _ => 0) (fun _ => 0)).1.parties_used = some 0 ∧
    (some 0 : Option ℕ) ≠ some 1 ∧
    (runQuestion [demoAgent] ["d"] 0 (7 / 10) true false false
        (fun _ => 0) (fun _ => 0)).1.aborted = false ∧
    (runQuestion [demoAgent] ["d"] 0 (7 / 10) true false false
        (fun _ => 0) (fun _ => 0)).1.resolved_outcome = none ∧
    (runQuestion [demoAgent] ["d"] 0 (7 / 10) true false false
        (fun _ => 0) (fun _ => 0)).1.indeterminate_resolution = true := by
  rw [runQuestion_threshold_zero]
  exact ⟨rfl, by decide, rfl, rfl, rfl⟩

/-! ### Claim C4 -/

theorem list_set_getD_self {α : Type} :
    ∀ (l : List α) (i : ℕ) (d : α), l.set i (l.getD i d) = l := by
  intro l
  induction l with
  | nil => intro i d; rfl
  | cons x xs ih =>
    intro i d
    cases i with
    | zero => simp [List.getD]
    | succ i =>
      simp only [List.set_cons_succ, List.cons.injEq, true_and]
      simpa [List.getD] using ih i d

theorem list_map_getD {α β : Type} (f : α → β) :
    ∀ (l : List α) (i : ℕ) (d : α), (l.map f).getD i (f d) = f (l.getD i d) := by
  intro l
  induction l with
  | nil => intro i d; rfl
  | cons x xs ih =>
    intro i d
    cases i with
    | zero => simp [List.getD]
    | succ i => simpa [List.getD] using ih i d

theorem list_map_set {α β : Type} (f : α → β) :
    ∀ (l : List α) (i : ℕ) (a : α), (l.set i a).map f = (l.map f).set i (f a) := by
  intro l
  induction l with
  | nil => intro i a; rfl
  | cons x xs ih =>
    intro i a
    cases i with
    | zero => simp
    | succ i => simp [ih]

theorem vote_sparse_rep (a : AnsweringEntity) (ctx : List String) (ic : ℝ)
    (tOut rep : Bool) (r : ℝ) :
    (vote a ctx ic tOut rep r).1.sparse_rep = a.sparse_rep := by
  cases rep <;> rfl

/-- The voting fold of the driver loop never changes any agent's reputation
ledger: casting a vote only increments `participation_count`. -/
theorem voting_preserves_ledgers (ctx : List String) (contention : ℝ)
    (tOut use_rep : Bool) (draw : ℕ → ℝ) :
    ∀ (ps : List (ℕ × ℕ)) (pop : List AnsweringEntity),
      (ps.foldl
          (fun acc ki =>
            acc.set ki.2
              (vote (acc.getD ki.2 default) ctx contention tOut use_rep
                (draw ki.1)).1)
          pop).map AnsweringEntity.sparse_rep =
        pop.map AnsweringEntity.sparse_rep := by
  intro ps
  induction ps with
  | nil => intro pop; rfl
  | cons ki ps ih =>
    intro pop
    rw [List.foldl_cons, ih, list_map_set, vote_sparse_rep]
    have hgd : (pop.map AnsweringEntity.sparse_rep).getD ki.2 ([] : Ledger) =
        (pop.getD ki.2 default).sparse_rep :=
      list_map_getD AnsweringEntity.sparse_rep pop ki.2 default
    rw [← hgd, list_set_getD_self]

/-- C4 (amended): an exact tie is marked `indeterminate_resolution = true` and
leaves every agent's reputation ledger unchanged, and an aborted question
leaves the whole population unchanged; however, a tied question is not
state-free — participants' `participation_count` still increments, see
`C4_counterexample`. -/
theorem C4_tie_and_abort_safety (pop : List AnsweringEntity) (ctx : List String)
    (thr contention : ℝ) (tOut use_rep fixed : Bool) (pick : ℕ → ℕ)
    (draw : ℕ → ℝ) :
    ((runQuestion pop ctx thr contention tOut use_rep fixed pick draw).1.aborted = true →
      (runQuestion pop ctx thr contention tOut use_rep fixed pick draw).2 = pop) ∧
    ((runQuestion pop ctx thr contention tOut use_rep fixed pick draw).1.resolved_outcome = none →
      (runQuestion pop ctx thr contention tOut use_rep fixed pick
          draw).2.map AnsweringEntity.sparse_rep =
        pop.map AnsweringEntity.sparse_rep ∧
      (runQuestion pop ctx thr contention tOut use_rep fixed
          pick draw).1.indeterminate_resolution = true) := by
  simp only [runQuestion]
  split
  · exact ⟨fun _ => rfl, fun _ => ⟨rfl, rfl⟩⟩
  · split
    · refine ⟨fun h => (Bool.false_ne_true h).elim, fun _ => ⟨?_, rfl⟩⟩
      exact voting_preserves_ledgers ctx contention tOut use_rep draw _ pop
    · exact ⟨fun h => (Bool.false_ne_true h).elim,
        fun h => (Option.some_ne_none _ h).elim⟩

theorem runQuestion_empty_pop (ctx : List String) (thr contention : ℝ)
    (tOut use_rep fixed : Bool) (pick : ℕ → ℕ) (draw : ℕ → ℝ) (hthr : 0 < thr) :
    runQuestion [] ctx thr contention tOut use_rep fixed pick draw =
      ({ aborted := true, indeterminate_resolution := true, parties_used := none,
         resolved_outcome := none, resolved_correctly := none }, []) := by
  simp only [runQuestion, List.length_nil, List.range_zero]
  rw [quorumLoop_nil]
  simp [hthr]

/-- C4 (witness): the safety statement applied to a concrete aborting run —
an empty population with threshold `1` aborts immediately, leaving the (empty)
population and all ledgers unchanged and the question marked indeterminate. -/
theorem C4_witness :
    (runQuestion [] ["d"] 1 (7 / 10) true false false
        (fun _ => 0) (fun _ => 0)).2 = [] ∧
    (runQuestion [] ["d"] 1 (7 / 10) true false false
        (fun _ => 0) (fun _ => 0)).2.map AnsweringEntity.sparse_rep =
      List.map AnsweringEntity.sparse_rep [] ∧
    (runQuestion [] ["d"] 1 (7 / 10) true false false
        (fun _ => 0) (fun _ => 0)).1.indeterminate_resolution = true := by
  have h := C4_tie_and_abort_safety [] ["d"] 1 (7 / 10) true false false
    (fun _ => 0) (fun _ => 0)
  have heq := runQuestion_empty_pop ["d"] 1 (7 / 10) true false false
    (fun _ => 0) (fun _ => 0) (by norm_num)
  have hab : (runQuestion [] ["d"] 1 (7 / 10) true false false
      (fun _ => 0) (fun _ => 0)).1.aborted = true := by rw [heq]
  have hres : (runQuestion [] ["d"] 1 (7 / 10) true false false
      (fun _ => 0) (fun _ => 0)).1.resolved_outcome = none := by rw [heq]
  exact ⟨h.1 hab, (h.2 hres).1, (h.2 hres).2⟩

theorem quorumLoop_two_units (contrib : ℕ → ℝ) (h0 : contrib 0 = 1)
    (h1 : contrib 1 = 1) :
    quorumLoop contrib 2 (fun _ => 0) 0 [0, 1] [] 0 = ([], [0, 1], 2) := by
  rw [quorumLoop_step _ _ _ _ _ _ _ (by norm_num) (by simp)]
  norm_num [List.getD, h0]
  rw [quorumLoop_step _ _ _ _ _ _ _ (by norm_num) (by simp)]
  norm_num [List.getD, h1]
  rw [quorumLoop_stop _ _ _ _ _ _ _ (by norm_num)]

/-- The concrete tied run used by claim C4: two fresh agents, reputation
disabled, fixed threshold `2`, votes `(T, F)` — an exact `1` vs `1` tie. -/
theorem runQuestion_tied_demo :
    runQuestion [demoAgent, demoAgent] ["d"] 2 (7 / 10) true false false
        (fun _ => 0) (fun k => if k = 0 then 0 else 9 / 10) =
      ({ aborted := false, indeterminate_resolution := true,
         parties_used := some 2, resolved_outcome := none,
         resolved_correctly := none },
       [⟨[], 1, [], 1, 1, 1 / 10⟩, ⟨[], 1, [], 1, 1, 1 / 10⟩]) := by
  have h0 : selection_contribution [demoAgent, demoAgent] ["d"] false false 0 = 1 := rfl
  have h1 : selection_contribution [demoAgent, demoAgent] ["d"] false false 1 = 1 := rfl
  have hloop := quorumLoop_two_units _ h0 h1
  simp only [runQuestion]
  rw [show List.range (List.length [demoAgent, demoAgent]) = [0, 1] from rfl]
  rw [hloop]
  rw [if_neg (by norm_num)]
  rw [show ([0, 1] : List ℕ).enum = [(0, 0), (1, 1)] from rfl]
  simp only [List.map_cons, List.map_nil, List.foldl_cons, List.foldl_nil]
  norm_num [vote, demoAgent, tally, vote_weight, resolveOutcome, List.getD]

/-- C4 (counterexample): in the concrete tied (non-aborted) run the
participating agents' states are not unchanged — their `participation_count`
moves from `0` to `1`, because the votes were cast before the tie was
detected (the reputation ledgers do stay unchanged). -/
theorem C4_counterexample :
    (runQuestion [demoAgent, demoAgent] ["d"] 2 (7 / 10) true false false
        (fun _ => 0) (fun k => if k = 0 then 0 else 9 / 10)).1.resolved_outcome
      = none ∧
    (runQuestion [demoAgent, demoAgent] ["d"] 2 (7 / 10) true false false
        (fun _ => 0) (fun k => if k = 0 then 0 else 9 / 10)).1.aborted = false ∧
    (runQuestion [demoAgent, demoAgent] ["d"] 2 (7 / 10) true false false
        (fun _ => 0) (fun k => if k = 0 then 0 else 9 / 10)).2.map
        AnsweringEntity.participation_count = [1, 1] ∧
    [demoAgent, demoAgent].map AnsweringEntity.participation_count = [0, 0] ∧
    ([1, 1] : List ℕ) ≠ [0, 0] := by
  rw [runQuestion_tied_demo]
  exact ⟨rfl, rfl, rfl, rfl, by decide⟩
